import Mathlib

/-!
Verification of `src/model.py` (unrolled ISTA MRI reconstruction network).

The development shallowly embeds the source in Lean:

* Real scalars are `ℚ`; complex scalars are `CQ` (pairs of rationals).
* A multi-channel feature map is a total function `FMap = ℕ → ℤ → ℤ → ℚ`
  (channel, z, y); the valid region and channel count are tracked
  extrinsically by explicit size parameters, and out-of-range values are
  irrelevant to (or zero-extended by) every operation, matching the array
  semantics of the source.  The `channels_first` / `channels_last` layouts
  of the source differ only in axis bookkeeping and are represented by the
  single layout-neutral `FMap` encoding.
* Complex images and k-space tensors are `CImg = ℤ → ℤ → CQ` and
  `KSp = ℕ → ℤ → ℤ → CQ` (coil, z, y).
* The external Fourier primitive of `utils.tfmri` is an abstract parameter
  `F : CImg → CImg` (with `Finv` its inverse); the remaining `utils.tfmri`
  helpers, which are part of the repository but not of `src/`, are modelled
  from the spec, each marked `Modelled from the spec:` in its doc comment.
* Learned parameters (convolution kernels, biases, batch-norm statistics,
  step sizes) are explicit function-valued parameters, read-only here.
-/

/-- Complex numbers with rational components: the scalar type of k-space and
image data.  The source uses `tf.complex64`; exact rational components keep
every operation computable and decidable. -/
structure CQ where
  re : ℚ
  im : ℚ
deriving DecidableEq, Repr

namespace CQ

theorem ext_iff {a b : CQ} : a = b ↔ a.re = b.re ∧ a.im = b.im := by
  constructor
  · rintro rfl; exact ⟨rfl, rfl⟩
  · rcases a with ⟨ar, ai⟩; rcases b with ⟨br, bi⟩
    rintro ⟨h1, h2⟩; cases h1; cases h2; rfl

/-- Complex conjugation (used by the adjoint sensing operator). -/
def conj (a : CQ) : CQ := ⟨a.re, -a.im⟩

/-- Scaling a complex value by a real scalar (broadcast `real * complex`). -/
def scale (r : ℚ) (a : CQ) : CQ := ⟨r * a.re, r * a.im⟩

instance : Zero CQ := ⟨⟨0, 0⟩⟩
instance : One CQ := ⟨⟨1, 0⟩⟩
instance : Add CQ := ⟨fun a b => ⟨a.re + b.re, a.im + b.im⟩⟩
instance : Mul CQ := ⟨fun a b => ⟨a.re * b.re - a.im * b.im, a.re * b.im + a.im * b.re⟩⟩
instance : Neg CQ := ⟨fun a => ⟨-a.re, -a.im⟩⟩
instance : Sub CQ := ⟨fun a b => ⟨a.re - b.re, a.im - b.im⟩⟩

@[simp] theorem add_re (a b : CQ) : (a + b).re = a.re + b.re := rfl
@[simp] theorem add_im (a b : CQ) : (a + b).im = a.im + b.im := rfl
@[simp] theorem mul_re (a b : CQ) : (a * b).re = a.re * b.re - a.im * b.im := rfl
@[simp] theorem mul_im (a b : CQ) : (a * b).im = a.re * b.im + a.im * b.re := rfl
@[simp] theorem neg_re (a : CQ) : (-a).re = -a.re := rfl
@[simp] theorem neg_im (a : CQ) : (-a).im = -a.im := rfl
@[simp] theorem sub_re (a b : CQ) : (a - b).re = a.re - b.re := rfl
@[simp] theorem sub_im (a b : CQ) : (a - b).im = a.im - b.im := rfl
@[simp] theorem zero_re : (0 : CQ).re = 0 := rfl
@[simp] theorem zero_im : (0 : CQ).im = 0 := rfl
@[simp] theorem one_re : (1 : CQ).re = 1 := rfl
@[simp] theorem one_im : (1 : CQ).im = 0 := rfl

theorem addAssoc (a b c : CQ) : a + b + c = a + (b + c) := by
  rw [ext_iff]; refine ⟨?_, ?_⟩ <;> simp only [add_re, add_im] <;> ring

theorem zeroAdd (a : CQ) : 0 + a = a := by
  rw [ext_iff]; refine ⟨?_, ?_⟩ <;> simp only [add_re, add_im, zero_re, zero_im] <;> ring

theorem addZero (a : CQ) : a + 0 = a := by
  rw [ext_iff]; refine ⟨?_, ?_⟩ <;> simp only [add_re, add_im, zero_re, zero_im] <;> ring

theorem addComm (a b : CQ) : a + b = b + a := by
  rw [ext_iff]; refine ⟨?_, ?_⟩ <;> simp only [add_re, add_im] <;> ring

theorem negAddCancel (a : CQ) : -a + a = 0 := by
  rw [ext_iff]; refine ⟨?_, ?_⟩ <;>
    simp only [add_re, add_im, neg_re, neg_im, zero_re, zero_im] <;> ring

theorem mulAssoc (a b c : CQ) : a * b * c = a * (b * c) := by
  rw [ext_iff]; refine ⟨?_, ?_⟩ <;> simp only [mul_re, mul_im] <;> ring

theorem oneMul (a : CQ) : 1 * a = a := by
  rw [ext_iff]; refine ⟨?_, ?_⟩ <;> simp only [mul_re, mul_im, one_re, one_im] <;> ring

theorem mulOne (a : CQ) : a * 1 = a := by
  rw [ext_iff]; refine ⟨?_, ?_⟩ <;> simp only [mul_re, mul_im, one_re, one_im] <;> ring

theorem mulComm (a b : CQ) : a * b = b * a := by
  rw [ext_iff]; refine ⟨?_, ?_⟩ <;> simp only [mul_re, mul_im] <;> ring

theorem leftDistrib (a b c : CQ) : a * (b + c) = a * b + a * c := by
  rw [ext_iff]; refine ⟨?_, ?_⟩ <;> simp only [mul_re, mul_im, add_re, add_im] <;> ring

theorem rightDistrib (a b c : CQ) : (a + b) * c = a * c + b * c := by
  rw [ext_iff]; refine ⟨?_, ?_⟩ <;> simp only [mul_re, mul_im, add_re, add_im] <;> ring

theorem zeroMul (a : CQ) : 0 * a = 0 := by
  rw [ext_iff]; refine ⟨?_, ?_⟩ <;> simp only [mul_re, mul_im, zero_re, zero_im] <;> ring

theorem mulZero (a : CQ) : a * 0 = 0 := by
  rw [ext_iff]; refine ⟨?_, ?_⟩ <;> simp only [mul_re, mul_im, zero_re, zero_im] <;> ring

theorem subEqAddNeg (a b : CQ) : a - b = a + -b := by
  rw [ext_iff]; refine ⟨?_, ?_⟩ <;>
    simp only [sub_re, sub_im, add_re, add_im, neg_re, neg_im] <;> ring

instance : CommRing CQ where
  add := (· + ·)
  zero := 0
  one := 1
  mul := (· * ·)
  neg := (- ·)
  sub := (· - ·)
  nsmul := nsmulRec
  zsmul := zsmulRec
  add_assoc := addAssoc
  zero_add := zeroAdd
  add_zero := addZero
  add_comm := addComm
  neg_add_cancel := negAddCancel
  mul_assoc := mulAssoc
  one_mul := oneMul
  mul_one := mulOne
  mul_comm := mulComm
  left_distrib := leftDistrib
  right_distrib := rightDistrib
  zero_mul := zeroMul
  mul_zero := mulZero
  sub_eq_add_neg := subEqAddNeg

@[simp] theorem conj_re (a : CQ) : (conj a).re = a.re := rfl
@[simp] theorem conj_im (a : CQ) : (conj a).im = -a.im := rfl
@[simp] theorem scale_re (r : ℚ) (a : CQ) : (scale r a).re = r * a.re := rfl
@[simp] theorem scale_im (r : ℚ) (a : CQ) : (scale r a).im = r * a.im := rfl

@[simp] theorem scale_one (a : CQ) : scale 1 a = a := by
  rw [ext_iff]; constructor <;> simp

end CQ

/-! ## Spatial primitives (`model.py` lines 10-67 and `utils.tfmri` helpers) -/

/-- A real multi-channel 2D feature map, indexed by (channel, z, y).  The
channel count and the valid spatial region `[0,nz) × [0,ny)` are tracked by
explicit size parameters at each operation; the encoding is layout-neutral
(`channels_last` and `channels_first` of the source differ only in axis
bookkeeping). -/
def FMap : Type := ℕ → ℤ → ℤ → ℚ

/-- `tf.nn.relu`. -/
def relu (x : ℚ) : ℚ := max x 0

/-- Learned parameters of one `tf.layers.conv2d` layer: kernel weights
(output channel, input channel, kernel z tap, kernel y tap) and biases. -/
structure ConvParams where
  w : ℕ → ℕ → ℕ → ℕ → ℚ
  b : ℕ → ℚ

/-- The learned/statistical per-channel map of one `tf.layers.batch_normalization`
layer.  The TF primitive is external to the repository (spec §4.2 asks only for
"batch-style normalization ... using a moving/renormalized statistic"); at fixed
statistics and mode it acts channel-wise, which is how it is modelled here. -/
def BNParams : Type := ℕ → ℚ → ℚ

/-- `model.py` lines 10-17 (`_batch_norm`): apply the normalization map of the
layer, channel-wise. -/
def _batch_norm (bn : BNParams) (x : FMap) : FMap :=
  fun c i j => bn c (x c i j)

/-- `model.py` lines 20-28 (`_batch_norm_relu`): optional batch norm, then relu. -/
def _batch_norm_relu (batchnorm : Bool) (bn : BNParams) (x : FMap) : FMap :=
  fun c i j => relu ((if batchnorm then _batch_norm bn x else x) c i j)

/-- Zero extension outside the valid region `[0,nz) × [0,ny)`: array reads of
`tf.layers.conv2d` with `padding='same'` see zeros beyond the tensor bounds. -/
def extendZero (nz ny : ℕ) (x : FMap) : FMap :=
  fun c i j => if 0 ≤ i ∧ i < (nz : ℤ) ∧ 0 ≤ j ∧ j < (ny : ℤ) then x c i j else 0

/-- `tf.layers.conv2d` with `padding='same'`, stride 1, on an input of spatial
size `nz × ny` with `cIn` channels: cross-correlation with a `k × k` kernel and
zero boundary, begin-padding `(k-1)/2` per axis, optional bias. -/
def conv2dSame (P : ConvParams) (useBias : Bool) (cIn k nz ny : ℕ) (x : FMap) : FMap :=
  fun o i j =>
    (if useBias then P.b o else 0) +
      ∑ c ∈ Finset.range cIn, ∑ dz ∈ Finset.range k, ∑ dy ∈ Finset.range k,
        P.w o c dz dy *
          extendZero nz ny x c (i + (dz : ℤ) - ((k - 1) / 2 : ℕ)) (j + (dy : ℤ) - ((k - 1) / 2 : ℕ))

/-- Modelled from the spec: `utils.tfmri.circular_pad` (not under `src/`),
§4.2 "extends a chosen spatial axis by `p` elements on each side by wrapping
values from the opposite edge (periodic boundary)", applied here to both
spatial axes as the source always does.  An input of size `nz × ny` becomes
size `(nz+2p) × (ny+2p)` with the wrapped value `x ((i-p) mod nz) ((j-p) mod ny)`. -/
def circular_pad2 (nz ny p : ℕ) (x : FMap) : FMap :=
  fun c i j => x c ((i - (p : ℤ)) % (nz : ℤ)) ((j - (p : ℤ)) % (ny : ℤ))

/-- Cropping `p` from the leading edge of both spatial axes
(the slice `[:, p:(shape+p), p:(shape+p), :]` of the source). -/
def crop2 (p : ℕ) (x : FMap) : FMap :=
  fun c i j => x c (i + (p : ℤ)) (j + (p : ℤ))

/-- `model.py` lines 31-67 (`_conv2d`): conv2d with option for circular
convolution.  `pad = int((kernel_size - 0.5) / 2)` is `(2k-1)/4` in exact
arithmetic; if `circular` and `pad > 0`, circularly pad both spatial axes,
convolve with `padding='same'`, and crop back. -/
def _conv2d (P : ConvParams) (cIn numFeatures k nz ny : ℕ) (circular useBias : Bool)
    (x : FMap) : FMap :=
  let pad : ℕ := (2 * k - 1) / 4
  if circular ∧ 0 < pad then
    crop2 pad (conv2dSame P useBias cIn k (nz + 2 * pad) (ny + 2 * pad) (circular_pad2 nz ny pad x))
  else
    conv2dSame P useBias cIn k nz ny x

/-! ## Residual block (`model.py` lines 70-128) -/

/-- Learned parameters of one `_res_block`. -/
structure BlockParams where
  short : ConvParams
  bn1 : BNParams
  conv1 : ConvParams
  bn2 : BNParams
  conv2 : ConvParams

/-- `model.py` lines 70-128 (`_res_block`): pre-activation ResNet block.
`pad = int((2*(kernel_size-1)+0.5)/2)`, i.e. `k-1`; the shortcut is the input,
or a 1×1 projection (`circular=False`, `use_bias = not batchnorm`) when
`num_features ≠ shape_c`; the main path is (optional circular pad) →
bn/relu → conv → bn/relu → conv (both convs `circular=False`) →
(optional crop); output is main path + shortcut. -/
def _res_block (P : BlockParams) (cIn numFeatures k nz ny : ℕ)
    (circular batchnorm : Bool) (x : FMap) : FMap :=
  let pad : ℕ := k - 1
  let shortcut : FMap :=
    if numFeatures = cIn then x
    else _conv2d P.short cIn numFeatures 1 nz ny false (!batchnorm) x
  let nzP : ℕ := if circular then nz + 2 * pad else nz
  let nyP : ℕ := if circular then ny + 2 * pad else ny
  let net0 : FMap := if circular then circular_pad2 nz ny pad x else x
  let net1 : FMap := _batch_norm_relu batchnorm P.bn1 net0
  let net2 : FMap := _conv2d P.conv1 cIn numFeatures k nzP nyP false (!batchnorm) net1
  let net3 : FMap := _batch_norm_relu batchnorm P.bn2 net2
  let net4 : FMap := _conv2d P.conv2 numFeatures numFeatures k nzP nyP false (!batchnorm) net3
  let net5 : FMap := if circular then crop2 pad net4 else net4
  fun c i j => net5 c i j + shortcut c i j

/-! ## Prior network (`model.py` lines 131-201) -/

/-- Learned parameters of one `prior_grad_res_net`. -/
structure PriorParams where
  short : ConvParams
  blocks : ℕ → BlockParams
  bnF : BNParams
  convF : ConvParams

/-- The sequential stack of residual blocks of `prior_grad_res_net`
(lines 173-176): block 0 consumes `cIn` channels, later blocks `numFeatures`;
every block is called with `circular=False`.  Returns the feature map after
`n` blocks together with its channel count. -/
def applyBlocks (Pb : ℕ → BlockParams) (numFeatures k nzP nyP : ℕ) (batchnorm : Bool)
    (x : FMap) (cIn : ℕ) : ℕ → FMap × ℕ
  | 0 => (x, cIn)
  | n + 1 =>
    let s := applyBlocks Pb numFeatures k nzP nyP batchnorm x cIn n
    (_res_block (Pb n) s.2 numFeatures k nzP nyP false batchnorm s.1, numFeatures)

/-- `model.py` lines 131-201 (`prior_grad_res_net`): prior gradient network.
`num_conv2d = 2*num_blocks + 1`, `pad = int((num_conv2d*(kernel_size-1)+0.5)/2)`
(`= num_conv2d*(k-1)/2` rounded down); optional 1×1 shortcut projection when a
residual output with a different channel count is requested; a single circular
pad at entry when `circular`; `num_blocks` residual blocks with `circular=False`;
the pre-final-conv tensor is saved as the dense output; bn/relu and a final conv
to `num_features_out` channels; a single crop of both outputs at exit when
`circular`; shortcut added when `do_residual`.  Returns (output, dense). -/
def prior_grad_res_net (P : PriorParams) (cIn numFeatures k numBlocks : ℕ)
    (circular doResidual batchnorm : Bool) (numFeaturesOut : Option ℕ)
    (nz ny : ℕ) (x : FMap) : FMap × FMap :=
  let cOut : ℕ := numFeaturesOut.getD cIn
  let numConv2d : ℕ := numBlocks * 2 + 1
  let pad : ℕ := numConv2d * (k - 1) / 2
  let shortcut : FMap :=
    if doResidual ∧ cIn ≠ cOut then
      _conv2d P.short cIn cOut 1 nz ny false (!batchnorm) x
    else x
  let nzP : ℕ := if circular then nz + 2 * pad else nz
  let nyP : ℕ := if circular then ny + 2 * pad else ny
  let net0 : FMap := if circular then circular_pad2 nz ny pad x else x
  let sB : FMap × ℕ := applyBlocks P.blocks numFeatures k nzP nyP batchnorm net0 cIn numBlocks
  let netDense : FMap := sB.1
  let net1 : FMap := _batch_norm_relu batchnorm P.bnF sB.1
  let net2 : FMap := _conv2d P.convF sB.2 cOut k nzP nyP false (!batchnorm) net1
  let netC : FMap := if circular then crop2 pad net2 else net2
  let denseC : FMap := if circular then crop2 pad netDense else netDense
  let netR : FMap := if doResidual then fun c i j => netC c i j + shortcut c i j else netC
  (netR, denseC)

/-! ## Sensing operator (modelled `utils.tfmri` primitives) and solver state -/

/-- A complex image: (z, y) ↦ value.  Batch elements are independent, so the
batch axis is dropped. -/
def CImg : Type := ℤ → ℤ → CQ

/-- Multi-coil k-space (or coil-expanded image) data: (coil, z, y) ↦ value.
In the single-coil / no-sensitivity-map case the source tensors carry no coil
axis; that is represented by coil-constant functions, read at coil 0. -/
def KSp : Type := ℕ → ℤ → ℤ → CQ

/-- Modelled from the spec: `utils.tfmri.complex_to_channels` (not under
`src/`), §3 "Complex Image and K-space Data are always representable as two
real channels (real, imaginary)".  Channel 0 is the real part, channel 1 the
imaginary part. -/
def complex_to_channels (x : CImg) : FMap :=
  fun c i j => if c = 0 then (x i j).re else if c = 1 then (x i j).im else 0

/-- Modelled from the spec: `utils.tfmri.channels_to_complex` (not under
`src/`), the exact inverse of the two-real-channel packing. -/
def channels_to_complex (x : FMap) : CImg :=
  fun i j => ⟨x 0 i j, x 1 i j⟩

/-- Modelled from the spec: `utils.tfmri.kspace_mask` (not under `src/`),
§4.5 "if no mask supplied, derive one from nonzero locations of the input
k-space" (with `dtype=tf.complex64`). -/
def kspace_mask (ks : KSp) : KSp :=
  fun c i j => if ks c i j = 0 then 0 else 1

/-- Elementwise multiplication of k-space by the sampling mask (`mask * ks` of
the source; `apply_mask` in the spec's §4.1 contract). -/
def apply_mask (ks mask : KSp) : KSp :=
  fun c i j => mask c i j * ks c i j

/-- Modelled from the spec: `utils.tfmri.model_forward` (not under `src/`),
§4.1 "forward(image, sensitivity_map) -> kspace: expands a combined image into
per-coil k-space via coil weighting then frequency transform.  If
`sensitivity_map` is absent, behaves as a plain per-image Fourier transform."
The frequency transform `F` itself is the external numerics primitive and is a
parameter. -/
def model_forward (F : CImg → CImg) (sensemap : Option (ℕ → CImg)) (x : CImg) : KSp :=
  match sensemap with
  | none => fun _ => F x
  | some s => fun c => F (fun i j => s c i j * x i j)

/-- Modelled from the spec: `utils.tfmri.model_transpose` (not under `src/`),
§4.1 "adjoint(kspace, sensitivity_map) -> image: inverse frequency transform
followed by conjugate-weighted coil combination (sum over coil axis)".
`Finv` is the external inverse frequency transform, `nc` the coil count. -/
def model_transpose (Finv : CImg → CImg) (sensemap : Option (ℕ → CImg)) (nc : ℕ)
    (ks : KSp) : CImg :=
  match sensemap with
  | none => fun i j => Finv (ks 0) i j
  | some s => fun i j => ∑ c ∈ Finset.range nc, CQ.conj (s c i j) * Finv (ks c) i j

/-- The fixed context of one reconstruction: the external frequency transform
and its inverse, the optional sensitivity maps, the coil count, and the valid
spatial extent. -/
structure IstaEnv where
  F : CImg → CImg
  Finv : CImg → CImg
  sensemap : Option (ℕ → CImg)
  nc : ℕ
  nz : ℕ
  ny : ℕ

/-- The configuration keywords of `unroll_ista` (`model.py` lines 204-216). -/
structure IstaConfig where
  numGradSteps : ℕ
  resblockNumFeatures : ℕ
  resblockNumBlocks : ℕ
  resblockShare : Bool
  maskOutput : Option ℚ
  hardProjection : Bool
  doDense : Bool
  batchnorm : Bool
  circular : Bool
  fixUpdate : Bool

/-- Learned parameters of one unrolled iteration: the step size `t` (variable
`"t"`, initialized to -2.0) and the prior-network parameters of that
iteration's variable scope. -/
structure IterParams where
  t : ℚ
  prior : PriorParams

/-- The parameter set read by iteration `i`: with `resblock_share` every
iteration reuses the scope `"iter"` (`tf.AUTO_REUSE`), i.e. the same
parameters; otherwise scope `"iter_%02d"` owns independent parameters. -/
def istaIterParams (cfg : IstaConfig) (Pit : ℕ → IterParams) (i : ℕ) : IterParams :=
  if cfg.resblockShare then Pit 0 else Pit i

/-- The step size used at iteration `i` (`model.py` lines 277-281):
the constant -2.0 when `fix_update`, else the learned scalar of the
iteration's parameter scope. -/
def istaTEff (cfg : IstaConfig) (Pit : ℕ → IterParams) (i : ℕ) : ℚ :=
  if cfg.fixUpdate then -2 else (istaIterParams cfg Pit i).t

/-- `model.py` lines 269-274: the data-fidelity gradient term
`A^T W A x_k - A^T W b`: forward-transform the current estimate, mask,
adjoint-transform, subtract the anchor image `im_0`. -/
def istaGrad (E : IstaEnv) (mask : KSp) (im0 : CImg) (imk : CImg) : CImg :=
  fun i j =>
    model_transpose E.Finv E.sensemap E.nc
        (apply_mask (model_forward E.F E.sensemap imk) mask) i j
      - im0 i j

/-- `model.py` lines 267-282: the gradient update handed to the prior network:
both the pre-update image and the gradient term are repacked to two real
channels and combined as `im_k_orig + t_update * im_k`. -/
def istaUpdate (E : IstaEnv) (mask : KSp) (im0 : CImg) (t : ℚ) (imk : CImg) : FMap :=
  fun c i j =>
    complex_to_channels imk c i j + t * complex_to_channels (istaGrad E mask im0 imk) c i j

/-- Concatenation along the channel axis (`tf.concat(..., axis=1)` in
`channels_first` layout): the first `c1` channels come from `x`, the rest
from `y`. -/
def concatCh (c1 : ℕ) (x y : FMap) : FMap :=
  fun c i j => if c < c1 then x c i j else y (c - c1) i j

/-- One iteration of the unrolled loop (`model.py` lines 255-312), acting on
the state (current complex image estimate, optional dense accumulator with its
channel count).  The update tensor (2 channels) optionally concatenated with
the dense accumulator is passed to `prior_grad_res_net` with `kernel_size=3`
(default), `do_residual=True` (default), `num_features_out = 2` (the channel
count of the update tensor before concatenation), `data_format=channels_first`;
the dense accumulator grows by the dense output when `do_dense`. -/
def istaStep (E : IstaEnv) (cfg : IstaConfig) (Pit : ℕ → IterParams) (mask : KSp)
    (im0 : CImg) (i : ℕ) (s : CImg × Option (FMap × ℕ)) : CImg × Option (FMap × ℕ) :=
  let upd : FMap := istaUpdate E mask im0 (istaTEff cfg Pit i) s.1
  let cCat : ℕ := match s.2 with | none => 2 | some (_, dc) => 2 + dc
  let cat : FMap := match s.2 with | none => upd | some (d, _) => concatCh 2 upd d
  let pr : FMap × FMap :=
    prior_grad_res_net (istaIterParams cfg Pit i).prior cCat cfg.resblockNumFeatures 3
      cfg.resblockNumBlocks cfg.circular true cfg.batchnorm (some 2) E.nz E.ny cat
  let dcNew : ℕ := if cfg.resblockNumBlocks = 0 then cCat else cfg.resblockNumFeatures
  let dense : Option (FMap × ℕ) :=
    if cfg.doDense then
      match s.2 with
      | some (d, dc) => some (concatCh dc d pr.2, dc + dcNew)
      | none => some (pr.2, dcNew)
    else s.2
  (channels_to_complex pr.1, dense)

/-- The unrolled loop with the per-iteration diagnostic record
(`summary_iter[iter_name] = im_k`, keyed here by the iteration index of the
name `iter_%02d`): state after `n` iterations. -/
def istaLoop (E : IstaEnv) (cfg : IstaConfig) (Pit : ℕ → IterParams) (mask : KSp)
    (im0 : CImg) : ℕ → CImg × Option (FMap × ℕ) × List (ℕ × CImg)
  | 0 => (im0, none, [])
  | n + 1 =>
    let s := istaLoop E cfg Pit mask im0 n
    let s₁ := istaStep E cfg Pit mask im0 n (s.1, s.2.1)
    (s₁.1, s₁.2, s.2.2 ++ [(n, s₁.1)])

/-- Modelled from the spec: the same unrolled iteration with the diagnostic
recording removed (spec §4.5g says the record is "for external inspection
(not consumed internally)"); used to compare against `istaLoop`. -/
def istaCore (E : IstaEnv) (cfg : IstaConfig) (Pit : ℕ → IterParams) (mask : KSp)
    (im0 : CImg) : ℕ → CImg × Option (FMap × ℕ)
  | 0 => (im0, none)
  | n + 1 => istaStep E cfg Pit mask im0 n (istaCore E cfg Pit mask im0 n)

/-- `model.py` lines 246-326 after the defensive input masking: from the
masked input `ks_0`, compute `im_0 = A^T W b`, run `num_grad_steps`
iterations, forward-transform the final estimate, optionally apply the hard
data-consistency projection `mask * ks_0 + (1-mask) * ks_k` rescaled by
`mask_output` (when not `None`) and re-derive the image by the adjoint.
Returns (output image, output k-space, diagnostic record). -/
def unroll_ista_masked (E : IstaEnv) (cfg : IstaConfig) (Pit : ℕ → IterParams)
    (mask ks0 : KSp) : CImg × KSp × List (ℕ × CImg) :=
  let im0 : CImg := model_transpose E.Finv E.sensemap E.nc ks0
  let fin := istaLoop E cfg Pit mask im0 cfg.numGradSteps
  let ksPred : KSp := model_forward E.F E.sensemap fin.1
  if cfg.hardProjection then
    let ksProj : KSp := fun c i j => mask c i j * ks0 c i j + (1 - mask c i j) * ksPred c i j
    let ksOut : KSp :=
      match cfg.maskOutput with
      | some r => fun c i j => CQ.scale r (ksProj c i j)
      | none => ksProj
    (model_transpose E.Finv E.sensemap E.nc ksOut, ksOut, fin.2.2)
  else
    (fin.1, ksPred, fin.2.2)

/-- `model.py` lines 204-326 (`unroll_ista`): derive the mask from the nonzero
locations of the input when none is supplied, re-bind the input to its masked
value (`ks_input = mask * ks_input`), and run the unrolled reconstruction. -/
def unroll_ista (E : IstaEnv) (cfg : IstaConfig) (Pit : ℕ → IterParams)
    (ks_input : KSp) (maskOpt : Option KSp) : CImg × KSp × List (ℕ × CImg) :=
  let mask : KSp := match maskOpt with | some m => m | none => kspace_mask ks_input
  unroll_ista_masked E cfg Pit mask (apply_mask ks_input mask)

/-! ## Spec-side definitions (stated from the spec's words, for comparison) -/

/-- Spec §4.3 step 1, the shortcut rule as the spec states it: the unmodified
input when the channel counts match, else a 1×1 projection convolution with no
circular padding and a bias term exactly when normalization is disabled. -/
def resBlockShortcutSpec (P : BlockParams) (cIn numFeatures nz ny : ℕ)
    (batchnorm : Bool) (x : FMap) : FMap :=
  if numFeatures = cIn then x
  else conv2dSame P.short (!batchnorm) cIn 1 nz ny x

/-- Spec §4.3 step 2, the main path as the spec states it: (optional circular
pad by `k-1`) → normalize+activate → padded-conv → normalize+activate →
padded-conv → (crop back if padded). -/
def resBlockMainSpec (P : BlockParams) (cIn numFeatures k nz ny : ℕ)
    (circular batchnorm : Bool) (x : FMap) : FMap :=
  let pad : ℕ := k - 1
  let nzP : ℕ := if circular then nz + 2 * pad else nz
  let nyP : ℕ := if circular then ny + 2 * pad else ny
  let net0 : FMap := if circular then circular_pad2 nz ny pad x else x
  let net2 : FMap :=
    _conv2d P.conv1 cIn numFeatures k nzP nyP false (!batchnorm)
      (_batch_norm_relu batchnorm P.bn1 net0)
  let net4 : FMap :=
    _conv2d P.conv2 numFeatures numFeatures k nzP nyP false (!batchnorm)
      (_batch_norm_relu batchnorm P.bn2 net2)
  if circular then crop2 pad net4 else net4

/-- Spec-side: `prior_grad_res_net` at zero residual blocks degenerates to a
single normalize-activate-convolution path (plus the optional shortcut): pad
once, no blocks, one final convolution, crop once. -/
def priorZeroBlocksSpec (P : PriorParams) (cIn k : ℕ)
    (circular doResidual batchnorm : Bool) (numFeaturesOut : Option ℕ)
    (nz ny : ℕ) (x : FMap) : FMap × FMap :=
  let cOut : ℕ := numFeaturesOut.getD cIn
  let pad : ℕ := (k - 1) / 2
  let shortcut : FMap :=
    if doResidual ∧ cIn ≠ cOut then
      _conv2d P.short cIn cOut 1 nz ny false (!batchnorm) x
    else x
  let nzP : ℕ := if circular then nz + 2 * pad else nz
  let nyP : ℕ := if circular then ny + 2 * pad else ny
  let net0 : FMap := if circular then circular_pad2 nz ny pad x else x
  let net2 : FMap :=
    _conv2d P.convF cIn cOut k nzP nyP false (!batchnorm)
      (_batch_norm_relu batchnorm P.bnF net0)
  let netC : FMap := if circular then crop2 pad net2 else net2
  let denseC : FMap := if circular then crop2 pad net0 else net0
  ((if doResidual then fun c i j => netC c i j + shortcut c i j else netC), denseC)

/-- Spec §4.2, the "same"-padding convolution with periodic rather than zero
boundary: each tap reads the input at the wrapped index
`(i + dz - (k-1)/2) mod nz` (and likewise along y). -/
def conv2dCircSame (P : ConvParams) (useBias : Bool) (cIn k nz ny : ℕ) (x : FMap) : FMap :=
  fun o i j =>
    (if useBias then P.b o else 0) +
      ∑ c ∈ Finset.range cIn, ∑ dz ∈ Finset.range k, ∑ dy ∈ Finset.range k,
        P.w o c dz dy *
          x c ((i + (dz : ℤ) - ((k - 1) / 2 : ℕ)) % (nz : ℤ))
            ((j + (dy : ℤ) - ((k - 1) / 2 : ℕ)) % (ny : ℤ))

/-- The entry padding of `prior_grad_res_net`:
`int((num_conv2d * (kernel_size - 1) + 0.5) / 2)` with `num_conv2d = 2B + 1`,
in exact arithmetic. -/
def priorPad (numBlocks k : ℕ) : ℕ := (numBlocks * 2 + 1) * (k - 1) / 2

/-- Spec §4.4 with circular mode active, as the spec words it: compute the
total padding `priorPad` once, circularly pad once at entry, apply the `B`
residual blocks with internal circular padding disabled, save the dense tap,
normalize+activate, apply the final convolution, crop both outputs once at
exit, and add the shortcut when a residual output is requested. -/
def priorStructSpec (P : PriorParams) (cIn numFeatures k numBlocks : ℕ)
    (doResidual batchnorm : Bool) (numFeaturesOut : Option ℕ)
    (nz ny : ℕ) (x : FMap) : FMap × FMap :=
  let cOut : ℕ := numFeaturesOut.getD cIn
  let pad : ℕ := priorPad numBlocks k
  let shortcut : FMap :=
    if doResidual ∧ cIn ≠ cOut then
      _conv2d P.short cIn cOut 1 nz ny false (!batchnorm) x
    else x
  let sB : FMap × ℕ :=
    applyBlocks P.blocks numFeatures k (nz + 2 * pad) (ny + 2 * pad) batchnorm
      (circular_pad2 nz ny pad x) cIn numBlocks
  let net2 : FMap :=
    _conv2d P.convF sB.2 cOut k (nz + 2 * pad) (ny + 2 * pad) false (!batchnorm)
      (_batch_norm_relu batchnorm P.bnF sB.1)
  ((if doResidual then fun c i j => crop2 pad net2 c i j + shortcut c i j
    else crop2 pad net2),
   crop2 pad sB.1)

/-! ## Concrete instances used by witnesses and counterexamples -/

/-- Convolution parameters with every kernel weight 1 and every bias 0. -/
def onesConvP : ConvParams := ⟨fun _ _ _ _ => 1, fun _ => 0⟩

/-- Convolution parameters with every kernel weight and bias 0. -/
def zeroConvP : ConvParams := ⟨fun _ _ _ _ => 0, fun _ => 0⟩

/-- The identity per-channel normalization map. -/
def idBN : BNParams := fun _ r => r

/-- A residual-block parameter set with all-ones convolutions and identity
normalization. -/
def onesBlockP : BlockParams := ⟨onesConvP, idBN, onesConvP, idBN, onesConvP⟩

/-- A prior-network parameter set with all-ones convolutions and identity
normalization. -/
def onesPriorP : PriorParams := ⟨onesConvP, fun _ => onesBlockP, idBN, onesConvP⟩

/-- An iteration parameter set with step size -2 and the all-ones prior. -/
def onesIterP : IterParams := ⟨-2, onesPriorP⟩

/-- The identity environment: identity frequency transform, no sensitivity
map, one coil, a 1×1 grid. -/
def idE : IstaEnv := ⟨fun x => x, fun x => x, none, 1, 1, 1⟩

/-- The all-ones 1×1 k-space input. -/
def onesKs : KSp := fun _ _ _ => 1

/-- The all-ones (fully sampled) mask. -/
def onesMask : KSp := fun _ _ _ => 1

/-- The all-ones feature map. -/
def onesX : FMap := fun _ _ _ => 1

/-- A non-binary mask (constant 2). -/
def cex7Mask : KSp := fun _ _ _ => ⟨2, 0⟩

/-- A binary mask sampling the line `i = 0`. -/
def wit7Mask : KSp := fun _ i _ => if i = 0 then 1 else 0

/-- The configuration of the zero-blocks run: 1 gradient step, 5 features,
0 residual blocks, no sharing, `mask_output = 1`, no hard projection, no dense
connections, no batch norm, no circular padding, fixed update step. -/
def cfg8 : IstaConfig := ⟨1, 5, 0, false, some 1, false, false, false, false, true⟩

/-- Spec §4.5a, the data-fidelity gradient as the spec words it:
"forward-transform current image estimate, apply mask, adjoint-transform back,
subtract the anchor image". -/
def specDataGrad (E : IstaEnv) (mask : KSp) (im0 x : CImg) : CImg :=
  fun i j =>
    model_transpose E.Finv E.sensemap E.nc
        (apply_mask (model_forward E.F E.sensemap x) mask) i j
      - im0 i j

/-- Modelled from the spec: the final image and k-space recomputed from the
recording-free loop `istaCore` (spec §4.5 Finalize), used to witness that the
per-iteration diagnostic record is never consumed by the solver. -/
def unrollCore (E : IstaEnv) (cfg : IstaConfig) (Pit : ℕ → IterParams)
    (mask ks0 : KSp) : CImg × KSp :=
  let im0 : CImg := model_transpose E.Finv E.sensemap E.nc ks0
  let fin := istaCore E cfg Pit mask im0 cfg.numGradSteps
  let ksPred : KSp := model_forward E.F E.sensemap fin.1
  if cfg.hardProjection then
    let ksProj : KSp := fun c i j => mask c i j * ks0 c i j + (1 - mask c i j) * ksPred c i j
    let ksOut : KSp :=
      match cfg.maskOutput with
      | some r => fun c i j => CQ.scale r (ksProj c i j)
      | none => ksProj
    (model_transpose E.Finv E.sensemap E.nc ksOut, ksOut)
  else
    (fin.1, ksPred)

/-- An exactly invertible mixing transform on the 1×2 grid: the orthogonal
rotation with matrix rows (3/5, 4/5) and (-4/5, 3/5) on the two valid
positions, the identity elsewhere. -/
def cexF : CImg → CImg := fun x i j =>
  if i = 0 ∧ j = 0 then ⟨3/5, 0⟩ * x 0 0 + ⟨4/5, 0⟩ * x 0 1
  else if i = 0 ∧ j = 1 then ⟨-4/5, 0⟩ * x 0 0 + ⟨3/5, 0⟩ * x 0 1
  else x i j

/-- The inverse (transpose) of `cexF`. -/
def cexFinv : CImg → CImg := fun y i j =>
  if i = 0 ∧ j = 0 then ⟨3/5, 0⟩ * y 0 0 + ⟨-4/5, 0⟩ * y 0 1
  else if i = 0 ∧ j = 1 then ⟨4/5, 0⟩ * y 0 0 + ⟨3/5, 0⟩ * y 0 1
  else y i j

/-- A single-coil sensitivity map taking value 1 at (0,0) and 2 at (0,1). -/
def cexS : ℕ → CImg := fun _ i j => if i = 0 ∧ j = 1 then ⟨2, 0⟩ else ⟨1, 0⟩

/-- Input k-space sampled only at (0,0), value 1. -/
def cexKs : KSp := fun _ i j => if i = 0 ∧ j = 0 then 1 else 0

/-- The sampling mask of `cexKs`: 1 at (0,0), 0 elsewhere. -/
def cexMask : KSp := fun _ i j => if i = 0 ∧ j = 0 then 1 else 0

/-- The environment of the zero-step counterexample: transform `cexF`,
inverse `cexFinv`, sensitivity map `cexS`, one coil, a 1×2 grid. -/
def cexE : IstaEnv := ⟨cexF, cexFinv, some cexS, 1, 1, 2⟩

/-- Zero gradient steps, hard projection on, `mask_output = 1`. -/
def cexCfg : IstaConfig := ⟨0, 1, 1, false, some 1, true, false, false, false, false⟩

/-- The configuration of the input-independence witness run: 2 steps, 3
features, 1 block, dense connections on, hard projection on. -/
def cfg10 : IstaConfig := ⟨2, 3, 1, false, some 1, true, true, false, false, false⟩

/-- k-space input agreeing with `wit10K2` exactly on the sampled location. -/
def wit10K1 : KSp := fun _ i j => if i = 0 ∧ j = 0 then 1 else 0

/-- k-space input differing from `wit10K1` only where the mask is 0. -/
def wit10K2 : KSp := fun _ i j => if i = 0 ∧ j = 0 then 1 else ⟨5, 7⟩

/-- The mask sampling only (0,0). -/
def wit10Mask : KSp := fun _ i j => if i = 0 ∧ j = 0 then 1 else 0

/-- The configuration of the zero-step no-sensemap witness run. -/
def cfg3w : IstaConfig := ⟨0, 1, 1, false, some 1, true, false, false, false, false⟩

/-! ## C6: residual-block shortcut rule -/

/-- C6: in every residual block, the output is the elementwise sum of the main
path and the shortcut, where the shortcut is the unmodified input when the
channel counts match and otherwise a 1×1 projection convolution with no
circular padding and a bias term exactly when normalization is disabled
(`resBlockShortcutSpec` spells the spec's rule, including
`use_bias = not batchnorm`). -/
theorem res_block_shortcut_spec (P : BlockParams) (cIn numFeatures k nz ny : ℕ)
    (circular batchnorm : Bool) (x : FMap) :
    _res_block P cIn numFeatures k nz ny circular batchnorm x
      = fun c i j =>
          resBlockMainSpec P cIn numFeatures k nz ny circular batchnorm x c i j
            + resBlockShortcutSpec P cIn numFeatures nz ny batchnorm x c i j := by
  funext c i j
  unfold _res_block resBlockMainSpec resBlockShortcutSpec _conv2d
  norm_num

/-! ## C7: mask idempotence (corrected: only for binary masks) -/

/-- C7 counterexample: masking is NOT idempotent for an arbitrary mask; with
the constant mask 2 and constant k-space 1, masking twice gives 4, masking
once gives 2. -/
theorem apply_mask_idempotent_cex :
    apply_mask (apply_mask onesKs cex7Mask) cex7Mask 0 0 0
      ≠ apply_mask onesKs cex7Mask 0 0 0 := by
  unfold apply_mask onesKs cex7Mask
  intro h
  rw [CQ.ext_iff] at h
  norm_num at h

/-- C7 (amended): applying the mask to k-space is idempotent for every mask
whose entries are 0 or 1 — in particular for the solver's sampling masks; the
defensive masking of the input followed by further masking never changes
already-masked values. -/
theorem apply_mask_idempotent_binary (k m : KSp)
    (h : ∀ c i j, m c i j = 0 ∨ m c i j = 1) :
    apply_mask (apply_mask k m) m = apply_mask k m := by
  funext c i j
  rcases h c i j with h0 | h1
  · show m c i j * (m c i j * k c i j) = m c i j * k c i j
    rw [h0]; ring
  · show m c i j * (m c i j * k c i j) = m c i j * k c i j
    rw [h1]; ring

/-- C7 witness: the amended idempotence law applied to the concrete binary
mask sampling the line `i = 0` and the all-ones k-space. -/
theorem apply_mask_idempotent_binary_witness :
    apply_mask (apply_mask onesKs wit7Mask) wit7Mask = apply_mask onesKs wit7Mask :=
  apply_mask_idempotent_binary onesKs wit7Mask (fun c i j => by
    unfold wit7Mask
    by_cases h : i = 0
    · rw [if_pos h]; exact Or.inr rfl
    · rw [if_neg h]; exact Or.inl rfl)

/-! ## C8: no configuration validation (corrected) -/

unseal Rat.mul Rat.add Rat.sub Rat.inv in
/-- C8 counterexample: constructing and running the solver with
`resblock_num_blocks = 0` does NOT fail with any error: the zero-blocks
configuration `cfg8` runs to completion on a 1×1 grid and returns the
well-defined value ⟨2, 1⟩ (and the zero-blocks prior network itself returns 3
on the all-ones input), silently producing the degenerate single-convolution
network. -/
theorem unroll_ista_zero_blocks_succeeds_cex :
    (unroll_ista idE cfg8 (fun _ => onesIterP) onesKs (some onesMask)).1 0 0 = ⟨2, 1⟩
      ∧ (prior_grad_res_net onesPriorP 2 5 3 0 false true false (some 2) 1 1 onesX).1 0 0 0
          = 3 := by
  constructor <;> decide

/-- C8 (amended): the code performs no configuration validation; with
`resblock_num_blocks = 0` the prior network silently degenerates to a single
normalize-activate-convolution path with no residual blocks
(`priorZeroBlocksSpec`), instead of failing with `InvalidConfiguration`. -/
theorem prior_grad_res_net_zero_blocks_degenerate (P : PriorParams)
    (cIn numFeatures k : ℕ) (circular doResidual batchnorm : Bool)
    (numFeaturesOut : Option ℕ) (nz ny : ℕ) (x : FMap) :
    prior_grad_res_net P cIn numFeatures k 0 circular doResidual batchnorm
        numFeaturesOut nz ny x
      = priorZeroBlocksSpec P cIn k circular doResidual batchnorm
          numFeaturesOut nz ny x := by
  unfold prior_grad_res_net priorZeroBlocksSpec applyBlocks
  norm_num

/-! ## C5: circular padded convolution equals periodic same convolution -/

/-- The two rounded padding formulas of the source and the spec agree:
`int((k - 0.5)/2)` of the source, exactly `(2k-1)/4`, is the spec's
`⌊(k - 0.5)/2⌋` for every `k ≥ 1`. -/
theorem conv_pad_floor_eq (k : ℕ) (hk : 1 ≤ k) :
    (((2 * k - 1) / 4 : ℕ) : ℤ) = Int.floor (((k : ℚ) - 1/2) / 2) := by
  have h : ((k : ℚ) - 1/2) / 2 = ((2 * k - 1 : ℕ) : ℚ) / ((4 : ℕ) : ℚ) := by
    rw [Nat.cast_sub (by omega : 1 ≤ 2 * k)]
    push_cast
    ring
  rw [h, Rat.floor_natCast_div_natCast]
  exact (Int.ofNat_div _ _).symm

/-- The prior network's rounded padding formula agrees with the spec's:
`int((m + 0.5)/2) = ⌊(m + 0.5)/2⌋ = m / 2` for a natural `m`. -/
theorem prior_pad_floor_eq (m : ℕ) :
    ((m / 2 : ℕ) : ℤ) = Int.floor (((m : ℚ) + 1/2) / 2) := by
  have h : ((m : ℚ) + 1/2) / 2 = ((2 * m + 1 : ℕ) : ℚ) / ((4 : ℕ) : ℚ) := by
    push_cast
    ring
  rw [h, Rat.floor_natCast_div_natCast]
  omega

/-- C5: for every odd kernel size, `_conv2d` with circular mode pads both
spatial axes by `int((k-0.5)/2) = ⌊(k-0.5)/2⌋` per side, convolves, and crops
the same amount, and on the whole valid region it equals the "same"-padding
convolution with periodic instead of zero boundary (`conv2dCircSame`); with
circular mode disabled it is exactly the standard zero-boundary same-padding
convolution. -/
theorem conv2d_circular_same_spec (P : ConvParams) (cIn numFeatures k nz ny : ℕ)
    (useBias : Bool) (x : FMap) (o : ℕ) (i j : ℤ) (hk : k % 2 = 1)
    (hi0 : 0 ≤ i) (hi : i < (nz : ℤ)) (hj0 : 0 ≤ j) (hj : j < (ny : ℤ)) :
    _conv2d P cIn numFeatures k nz ny true useBias x o i j
        = conv2dCircSame P useBias cIn k nz ny x o i j
      ∧ _conv2d P cIn numFeatures k nz ny false useBias x
          = conv2dSame P useBias cIn k nz ny x
      ∧ (((2 * k - 1) / 4 : ℕ) : ℤ) = Int.floor (((k : ℚ) - 1/2) / 2) := by
  refine ⟨?_, ?_, conv_pad_floor_eq k (by omega)⟩
  · unfold _conv2d
    by_cases hp : 0 < (2 * k - 1) / 4
    · rw [if_pos ⟨rfl, hp⟩]
      unfold crop2 conv2dSame conv2dCircSame
      congr 1
      refine Finset.sum_congr rfl fun c _ => ?_
      refine Finset.sum_congr rfl fun dz hdz => ?_
      refine Finset.sum_congr rfl fun dy hdy => ?_
      rw [Finset.mem_range] at hdz hdy
      congr 1
      unfold extendZero circular_pad2
      rw [if_pos (by push_cast; omega)]
      have ez : i + ((2 * k - 1) / 4 : ℕ) + (dz : ℤ) - ((k - 1) / 2 : ℕ)
          - ((2 * k - 1) / 4 : ℕ) = i + (dz : ℤ) - ((k - 1) / 2 : ℕ) := by ring
      have ey : j + ((2 * k - 1) / 4 : ℕ) + (dy : ℤ) - ((k - 1) / 2 : ℕ)
          - ((2 * k - 1) / 4 : ℕ) = j + (dy : ℤ) - ((k - 1) / 2 : ℕ) := by ring
      rw [ez, ey]
    · rw [if_neg (fun hc => hp hc.2)]
      have hk1 : k = 1 := by omega
      subst hk1
      unfold conv2dSame conv2dCircSame
      congr 1
      refine Finset.sum_congr rfl fun c _ => ?_
      refine Finset.sum_congr rfl fun dz hdz => ?_
      refine Finset.sum_congr rfl fun dy hdy => ?_
      rw [Finset.mem_range] at hdz hdy
      have hz0 : dz = 0 := by omega
      have hy0 : dy = 0 := by omega
      subst hz0; subst hy0
      congr 1
      unfold extendZero
      norm_num
      rw [if_pos ⟨hi0, hi, hj0, hj⟩, Int.emod_eq_of_lt hi0 hi, Int.emod_eq_of_lt hj0 hj]
  · unfold _conv2d
    rw [if_neg (fun hc => by simpa using hc.1)]

/-- C5 witness: the equivalence at the concrete input `k = 3`, a 1×1 grid, one
channel, all-ones kernel with bias, the all-ones feature map, at position
(0, 0). -/
theorem conv2d_circular_same_spec_witness :
    _conv2d onesConvP 1 1 3 1 1 true true onesX 0 0 0
        = conv2dCircSame onesConvP true 1 3 1 1 onesX 0 0 0
      ∧ _conv2d onesConvP 1 1 3 1 1 false true onesX
          = conv2dSame onesConvP true 1 3 1 1 onesX
      ∧ (((2 * 3 - 1) / 4 : ℕ) : ℤ) = Int.floor (((3 : ℚ) - 1/2) / 2) :=
  conv2d_circular_same_spec onesConvP 1 1 3 1 1 true onesX 0 0 0 (by norm_num)
    (by norm_num) (by norm_num) (by norm_num) (by norm_num)

/-! ## C4: single pad/crop around the whole prior stack -/

/-- C4: with circular mode active, `prior_grad_res_net` with `B` blocks and
kernel size `k` computes the single padding `priorPad B k = ⌊((2B+1)(k-1)+0.5)/2⌋`,
applies one circular pad at entry and one crop at exit around the whole stack
(`priorStructSpec`), and every residual block of the stack runs with its
internal circular padding disabled (the `false` argument exposed by the block
recursion, second conjunct). -/
theorem prior_grad_res_net_single_pad_structure (P : PriorParams)
    (cIn numFeatures k numBlocks : ℕ) (doResidual batchnorm : Bool)
    (numFeaturesOut : Option ℕ) (nz ny : ℕ) (x : FMap) (hk : 1 ≤ k) :
    ((priorPad numBlocks k : ℕ) : ℤ)
        = Int.floor (((((2 * numBlocks + 1) * (k - 1) : ℕ) : ℚ) + 1/2) / 2)
      ∧ (∀ (nzP nyP n cPrev : ℕ) (y : FMap),
          applyBlocks P.blocks numFeatures k nzP nyP batchnorm y cPrev (n + 1)
            = (_res_block (P.blocks n)
                (applyBlocks P.blocks numFeatures k nzP nyP batchnorm y cPrev n).2
                numFeatures k nzP nyP false batchnorm
                (applyBlocks P.blocks numFeatures k nzP nyP batchnorm y cPrev n).1,
               numFeatures))
      ∧ prior_grad_res_net P cIn numFeatures k numBlocks true doResidual batchnorm
          numFeaturesOut nz ny x
        = priorStructSpec P cIn numFeatures k numBlocks doResidual batchnorm
            numFeaturesOut nz ny x := by
  refine ⟨?_, fun nzP nyP n cPrev y => rfl, ?_⟩
  · unfold priorPad
    rw [show (numBlocks * 2 + 1) * (k - 1) = (2 * numBlocks + 1) * (k - 1) by ring]
    exact prior_pad_floor_eq ((2 * numBlocks + 1) * (k - 1))
  · unfold prior_grad_res_net priorStructSpec priorPad
    norm_num

/-! ## C10: outputs depend on the input k-space only through the mask -/

/-- C10: with an explicitly supplied mask, two input k-spaces that agree at
every location where the mask is nonzero produce identical outputs — final
image, final k-space and every diagnostic entry — because the input k-space is
multiplied by the mask before any other use (`ks_input = mask * ks_input`). -/
theorem unroll_ista_masked_input_independence (E : IstaEnv) (cfg : IstaConfig)
    (Pit : ℕ → IterParams) (k1 k2 m : KSp)
    (h : ∀ c i j, m c i j ≠ 0 → k1 c i j = k2 c i j) :
    unroll_ista E cfg Pit k1 (some m) = unroll_ista E cfg Pit k2 (some m) := by
  have hmk : apply_mask k1 m = apply_mask k2 m := by
    funext c i j
    by_cases h0 : m c i j = 0
    · show m c i j * k1 c i j = m c i j * k2 c i j
      rw [h0, zero_mul, zero_mul]
    · show m c i j * k1 c i j = m c i j * k2 c i j
      rw [h c i j h0]
  show unroll_ista_masked E cfg Pit m (apply_mask k1 m)
      = unroll_ista_masked E cfg Pit m (apply_mask k2 m)
  rw [hmk]

/-- C10 witness: the independence applied to the concrete inputs `wit10K1` and
`wit10K2`, which differ (by ⟨5,7⟩ against 0) at every unsampled location. -/
theorem unroll_ista_masked_input_independence_witness :
    unroll_ista idE cfg10 (fun _ => onesIterP) wit10K1 (some wit10Mask)
      = unroll_ista idE cfg10 (fun _ => onesIterP) wit10K2 (some wit10Mask) :=
  unroll_ista_masked_input_independence idE cfg10 (fun _ => onesIterP)
    wit10K1 wit10K2 wit10Mask
    (fun c i j hm => by
      unfold wit10Mask at hm
      unfold wit10K1 wit10K2
      by_cases hij : i = 0 ∧ j = 0
      · rw [if_pos hij, if_pos hij]
      · rw [if_neg hij] at hm
        exact absurd rfl hm)

/-! ## C1: hard data-consistency projection is exact -/

/-- C1: with hard projection enabled, at every location where the mask is 1
the returned k-space equals the original measured (masked) input k-space
scaled by `mask_output` (default 1); at every location where the mask is 0 it
equals the network's predicted k-space (the forward transform of the final
iterate) scaled by `mask_output`; and the returned image is the adjoint
transform of the projected k-space. -/
theorem unroll_ista_hard_projection_exact (E : IstaEnv) (cfg : IstaConfig)
    (Pit : ℕ → IterParams) (ks m : KSp) (hhard : cfg.hardProjection = true) :
    (∀ c i j, m c i j = 1 →
        (unroll_ista E cfg Pit ks (some m)).2.1 c i j
          = CQ.scale (cfg.maskOutput.getD 1) (apply_mask ks m c i j))
      ∧ (∀ c i j, m c i j = 0 →
          (unroll_ista E cfg Pit ks (some m)).2.1 c i j
            = CQ.scale (cfg.maskOutput.getD 1)
                (model_forward E.F E.sensemap
                  (istaLoop E cfg Pit m
                    (model_transpose E.Finv E.sensemap E.nc (apply_mask ks m))
                    cfg.numGradSteps).1 c i j))
      ∧ (unroll_ista E cfg Pit ks (some m)).1
          = model_transpose E.Finv E.sensemap E.nc
              (unroll_ista E cfg Pit ks (some m)).2.1 := by
  cases hmo : cfg.maskOutput with
  | none =>
    refine ⟨fun c i j h1 => ?_, fun c i j h0 => ?_, ?_⟩
    · show (unroll_ista_masked E cfg Pit m (apply_mask ks m)).2.1 c i j = _
      unfold unroll_ista_masked
      simp only [hhard, hmo, if_true, Option.getD_none]
      rw [CQ.scale_one, h1]
      ring
    · show (unroll_ista_masked E cfg Pit m (apply_mask ks m)).2.1 c i j = _
      unfold unroll_ista_masked
      simp only [hhard, hmo, if_true, Option.getD_none]
      rw [CQ.scale_one, h0]
      ring
    · show (unroll_ista_masked E cfg Pit m (apply_mask ks m)).1
          = model_transpose E.Finv E.sensemap E.nc
              (unroll_ista_masked E cfg Pit m (apply_mask ks m)).2.1
      unfold unroll_ista_masked
      simp only [hhard, hmo, if_true]
  | some r =>
    refine ⟨fun c i j h1 => ?_, fun c i j h0 => ?_, ?_⟩
    · show (unroll_ista_masked E cfg Pit m (apply_mask ks m)).2.1 c i j = _
      unfold unroll_ista_masked
      simp only [hhard, hmo, if_true, Option.getD_some]
      congr 1
      rw [h1]
      ring
    · show (unroll_ista_masked E cfg Pit m (apply_mask ks m)).2.1 c i j = _
      unfold unroll_ista_masked
      simp only [hhard, hmo, if_true, Option.getD_some]
      congr 1
      rw [h0]
      ring
    · show (unroll_ista_masked E cfg Pit m (apply_mask ks m)).1
          = model_transpose E.Finv E.sensemap E.nc
              (unroll_ista_masked E cfg Pit m (apply_mask ks m)).2.1
      unfold unroll_ista_masked
      simp only [hhard, hmo, if_true]

/-- C1 witness: the projection property at the concrete run `cfg10` on the
1×2-supported inputs: at the sampled location (0,0) the mask is 1 and the
output k-space is the scaled masked input; at (0,1) the mask is 0. -/
theorem unroll_ista_hard_projection_exact_witness :
    ((unroll_ista idE cfg10 (fun _ => onesIterP) wit10K1 (some wit10Mask)).2.1 0 0 0
        = CQ.scale (cfg10.maskOutput.getD 1) (apply_mask wit10K1 wit10Mask 0 0 0))
      ∧ ((unroll_ista idE cfg10 (fun _ => onesIterP) wit10K1 (some wit10Mask)).2.1 0 0 1
          = CQ.scale (cfg10.maskOutput.getD 1)
              (model_forward idE.F idE.sensemap
                (istaLoop idE cfg10 (fun _ => onesIterP) wit10Mask
                  (model_transpose idE.Finv idE.sensemap idE.nc
                    (apply_mask wit10K1 wit10Mask))
                  cfg10.numGradSteps).1 0 0 1))
      ∧ (unroll_ista idE cfg10 (fun _ => onesIterP) wit10K1 (some wit10Mask)).1
          = model_transpose idE.Finv idE.sensemap idE.nc
              (unroll_ista idE cfg10 (fun _ => onesIterP) wit10K1 (some wit10Mask)).2.1 := by
  have h := unroll_ista_hard_projection_exact idE cfg10 (fun _ => onesIterP)
    wit10K1 wit10Mask rfl
  exact ⟨h.1 0 0 0 (by decide), h.2.1 0 0 1 (by decide), h.2.2⟩

/-- C4 witness: the single-pad structure at the concrete input `B = 1`,
`k = 3`, all-ones parameters, on a 1×1 grid with 2 input channels and 2
output channels. -/
theorem prior_grad_res_net_single_pad_structure_witness :
    ((priorPad 1 3 : ℕ) : ℤ)
        = Int.floor (((((2 * 1 + 1) * (3 - 1) : ℕ) : ℚ) + 1/2) / 2)
      ∧ (∀ (nzP nyP n cPrev : ℕ) (y : FMap),
          applyBlocks onesPriorP.blocks 5 3 nzP nyP false y cPrev (n + 1)
            = (_res_block (onesPriorP.blocks n)
                (applyBlocks onesPriorP.blocks 5 3 nzP nyP false y cPrev n).2
                5 3 nzP nyP false false
                (applyBlocks onesPriorP.blocks 5 3 nzP nyP false y cPrev n).1,
               5))
      ∧ prior_grad_res_net onesPriorP 2 5 3 1 true true false (some 2) 1 1 onesX
        = priorStructSpec onesPriorP 2 5 3 1 true false (some 2) 1 1 onesX :=
  prior_grad_res_net_single_pad_structure onesPriorP 2 5 3 1 true false (some 2)
    1 1 onesX (by norm_num)

/-! ## C2: the gradient update step -/

/-- C2: in every iteration of the unrolled loop, the estimate handed to the
prior network is `pre_update + t * gradient`: the two-real-channel repacking
of the current iterate plus `t` times the two-real-channel repacking of the
data-fidelity gradient (`specDataGrad`: forward transform, mask, adjoint
transform, minus the anchor image, the adjoint reconstruction of the masked
input `ks0`), where `t` is the fixed constant -2 when `fix_update` is set and
otherwise the learned scalar of iteration `n` — that of iteration 0 when
weight sharing is configured.  The second conjunct places the update inside
the loop: the next iterate is the prior network's output on exactly this
update tensor, concatenated with the dense accumulator when one is present. -/
theorem unroll_ista_update_step_eq (E : IstaEnv) (cfg : IstaConfig)
    (Pit : ℕ → IterParams) (mask ks0 : KSp) (n : ℕ) :
    istaUpdate E mask (model_transpose E.Finv E.sensemap E.nc ks0)
        (istaTEff cfg Pit n)
        (istaLoop E cfg Pit mask (model_transpose E.Finv E.sensemap E.nc ks0) n).1
      = (fun c i j =>
          complex_to_channels
              (istaLoop E cfg Pit mask
                (model_transpose E.Finv E.sensemap E.nc ks0) n).1 c i j
            + (if cfg.fixUpdate then -2
               else if cfg.resblockShare then (Pit 0).t else (Pit n).t)
              * complex_to_channels
                  (specDataGrad E mask (model_transpose E.Finv E.sensemap E.nc ks0)
                    (istaLoop E cfg Pit mask
                      (model_transpose E.Finv E.sensemap E.nc ks0) n).1) c i j)
      ∧ (istaLoop E cfg Pit mask (model_transpose E.Finv E.sensemap E.nc ks0) (n + 1)).1
          = channels_to_complex
              (prior_grad_res_net (istaIterParams cfg Pit n).prior
                (match (istaLoop E cfg Pit mask
                    (model_transpose E.Finv E.sensemap E.nc ks0) n).2.1 with
                 | none => 2
                 | some (_, dc) => 2 + dc)
                cfg.resblockNumFeatures 3 cfg.resblockNumBlocks cfg.circular true
                cfg.batchnorm (some 2) E.nz E.ny
                (match (istaLoop E cfg Pit mask
                    (model_transpose E.Finv E.sensemap E.nc ks0) n).2.1 with
                 | none =>
                     istaUpdate E mask (model_transpose E.Finv E.sensemap E.nc ks0)
                       (istaTEff cfg Pit n)
                       (istaLoop E cfg Pit mask
                         (model_transpose E.Finv E.sensemap E.nc ks0) n).1
                 | some (d, _) =>
                     concatCh 2
                       (istaUpdate E mask (model_transpose E.Finv E.sensemap E.nc ks0)
                         (istaTEff cfg Pit n)
                         (istaLoop E cfg Pit mask
                           (model_transpose E.Finv E.sensemap E.nc ks0) n).1)
                       d)).1 := by
  constructor
  · have ht : istaTEff cfg Pit n
        = (if cfg.fixUpdate then -2
           else if cfg.resblockShare then (Pit 0).t else (Pit n).t) := by
      unfold istaTEff istaIterParams
      by_cases hf : cfg.fixUpdate
      · rw [if_pos hf, if_pos hf]
      · rw [if_neg hf, if_neg hf, apply_ite IterParams.t]
    funext c i j
    rw [← ht]
    rfl
  · rfl

/-! ## C9: the diagnostic record -/

/-- The image and dense-accumulator components of the recording loop equal the
recording-free loop, at every step. -/
theorem istaLoop_core (E : IstaEnv) (cfg : IstaConfig) (Pit : ℕ → IterParams)
    (mask : KSp) (im0 : CImg) :
    ∀ n, ((istaLoop E cfg Pit mask im0 n).1, (istaLoop E cfg Pit mask im0 n).2.1)
      = istaCore E cfg Pit mask im0 n
  | 0 => rfl
  | n + 1 => by
    have ih := istaLoop_core E cfg Pit mask im0 n
    simp only [istaLoop, istaCore]
    rw [← ih]

/-- The diagnostic record after `n` steps lists exactly the iteration indices
`0..n-1`, each paired with that iteration's post-prior image. -/
theorem istaLoop_summary (E : IstaEnv) (cfg : IstaConfig) (Pit : ℕ → IterParams)
    (mask : KSp) (im0 : CImg) :
    ∀ n, (istaLoop E cfg Pit mask im0 n).2.2
      = (List.range n).map (fun i => (i, (istaCore E cfg Pit mask im0 (i + 1)).1))
  | 0 => rfl
  | n + 1 => by
    have ih := istaLoop_summary E cfg Pit mask im0 n
    have hc := istaLoop_core E cfg Pit mask im0 n
    simp only [istaLoop]
    rw [List.range_succ, List.map_append, ← ih]
    simp only [List.map, istaCore]
    rw [← hc]

/-- C9: `unroll_ista` returns a diagnostic record with exactly
`num_grad_steps` entries, keyed by the iteration indices `0..N-1`, the entry
of iteration `i` being that iteration's post-prior complex image estimate
(`(istaCore (i+1)).1`); and the returned image and k-space equal those of the
recording-free computation `unrollCore`, so the recording is never read by
the solver itself. -/
theorem unroll_ista_summary_spec (E : IstaEnv) (cfg : IstaConfig)
    (Pit : ℕ → IterParams) (ks : KSp) (maskOpt : Option KSp) :
    (unroll_ista E cfg Pit ks maskOpt).2.2
        = (List.range cfg.numGradSteps).map
            (fun i => (i, (istaCore E cfg Pit
              (match maskOpt with | some m => m | none => kspace_mask ks)
              (model_transpose E.Finv E.sensemap E.nc
                (apply_mask ks
                  (match maskOpt with | some m => m | none => kspace_mask ks)))
              (i + 1)).1))
      ∧ (unroll_ista E cfg Pit ks maskOpt).2.2.length = cfg.numGradSteps
      ∧ ((unroll_ista E cfg Pit ks maskOpt).1, (unroll_ista E cfg Pit ks maskOpt).2.1)
          = unrollCore E cfg Pit
              (match maskOpt with | some m => m | none => kspace_mask ks)
              (apply_mask ks
                (match maskOpt with | some m => m | none => kspace_mask ks)) := by
  cases maskOpt with
  | none =>
    refine ⟨?_, ?_, ?_⟩
    · show (unroll_ista_masked E cfg Pit (kspace_mask ks)
          (apply_mask ks (kspace_mask ks))).2.2 = _
      unfold unroll_ista_masked
      cases hh : cfg.hardProjection <;>
        simp only [hh, if_true, if_false, Bool.false_eq_true, istaLoop_summary]
    · show (unroll_ista_masked E cfg Pit (kspace_mask ks)
          (apply_mask ks (kspace_mask ks))).2.2.length = _
      unfold unroll_ista_masked
      cases hh : cfg.hardProjection <;>
        simp only [hh, if_true, if_false, Bool.false_eq_true, istaLoop_summary,
          List.length_map, List.length_range]
    · show ((unroll_ista_masked E cfg Pit (kspace_mask ks)
            (apply_mask ks (kspace_mask ks))).1,
          (unroll_ista_masked E cfg Pit (kspace_mask ks)
            (apply_mask ks (kspace_mask ks))).2.1) = _
      unfold unroll_ista_masked unrollCore
      have hc := istaLoop_core E cfg Pit (kspace_mask ks)
        (model_transpose E.Finv E.sensemap E.nc (apply_mask ks (kspace_mask ks)))
        cfg.numGradSteps
      have h1 := congrArg Prod.fst hc
      cases hh : cfg.hardProjection <;>
        simp only [hh, if_true, if_false, Bool.false_eq_true] <;>
        rw [← h1]
  | some m =>
    refine ⟨?_, ?_, ?_⟩
    · show (unroll_ista_masked E cfg Pit m (apply_mask ks m)).2.2 = _
      unfold unroll_ista_masked
      cases hh : cfg.hardProjection <;>
        simp only [hh, if_true, if_false, Bool.false_eq_true, istaLoop_summary]
    · show (unroll_ista_masked E cfg Pit m (apply_mask ks m)).2.2.length = _
      unfold unroll_ista_masked
      cases hh : cfg.hardProjection <;>
        simp only [hh, if_true, if_false, Bool.false_eq_true, istaLoop_summary,
          List.length_map, List.length_range]
    · show ((unroll_ista_masked E cfg Pit m (apply_mask ks m)).1,
          (unroll_ista_masked E cfg Pit m (apply_mask ks m)).2.1) = _
      unfold unroll_ista_masked unrollCore
      have hc := istaLoop_core E cfg Pit m
        (model_transpose E.Finv E.sensemap E.nc (apply_mask ks m))
        cfg.numGradSteps
      have h1 := congrArg Prod.fst hc
      cases hh : cfg.hardProjection <;>
        simp only [hh, if_true, if_false, Bool.false_eq_true] <;>
        rw [← h1]

/-! ## C3: zero-step behaviour (corrected) -/

/-- `cexFinv` is a left inverse of `cexF`. -/
theorem cexFinv_cexF (x : CImg) : cexFinv (cexF x) = x := by
  funext i j
  unfold cexF cexFinv
  by_cases h1 : i = 0 ∧ j = 0
  · obtain ⟨hi, hj⟩ := h1
    subst hi; subst hj
    norm_num
    rw [CQ.ext_iff]
    constructor <;> simp <;> ring
  · by_cases h2 : i = 0 ∧ j = 1
    · obtain ⟨hi, hj⟩ := h2
      subst hi; subst hj
      norm_num
      rw [CQ.ext_iff]
      constructor <;> simp <;> ring
    · simp only [if_neg h1, if_neg h2]

/-- `cexFinv` is a right inverse of `cexF`. -/
theorem cexF_cexFinv (y : CImg) : cexF (cexFinv y) = y := by
  funext i j
  unfold cexF cexFinv
  by_cases h1 : i = 0 ∧ j = 0
  · obtain ⟨hi, hj⟩ := h1
    subst hi; subst hj
    norm_num
    rw [CQ.ext_iff]
    constructor <;> simp <;> ring
  · by_cases h2 : i = 0 ∧ j = 1
    · obtain ⟨hi, hj⟩ := h2
      subst hi; subst hj
      norm_num
      rw [CQ.ext_iff]
      constructor <;> simp <;> ring
    · simp only [if_neg h1, if_neg h2]

unseal Rat.mul Rat.add Rat.sub Rat.inv in
/-- C3 counterexample: with a nontrivial sensitivity map the zero-step,
hard-projected run does NOT return the initial adjoint reconstruction, even
though the frequency transform is exactly invertible (first two conjuncts):
with the orthogonal transform `cexF`, sensitivity map (1, 2) on a 1×2 grid,
input k-space (1, 0) and mask (1, 0), the returned image at (0, 1) is 416/125
while the initial reconstruction there is 8/5 = 200/125, and the returned
k-space at the unsampled location (0, 1) is 36/25 while the masked input is 0:
the hard projection is not a no-op, because `forward (adjoint ks)` is not `ks`
when coil weighting intervenes. -/
theorem unroll_ista_zero_step_identity_cex :
    (∀ x, cexFinv (cexF x) = x) ∧ (∀ x, cexF (cexFinv x) = x)
      ∧ (unroll_ista cexE cexCfg (fun _ => onesIterP) cexKs (some cexMask)).1 0 1
          ≠ model_transpose cexE.Finv cexE.sensemap cexE.nc
              (apply_mask cexKs cexMask) 0 1
      ∧ (unroll_ista cexE cexCfg (fun _ => onesIterP) cexKs (some cexMask)).2.1 0 0 1
          ≠ apply_mask cexKs cexMask 0 0 1 := by
  refine ⟨cexFinv_cexF, cexF_cexFinv, ?_, ?_⟩ <;> decide

/-- C3 (amended): the zero-step identity holds in the single-coil,
no-sensitivity-map case: with `num_grad_steps = 0`, `hard_projection = True`,
the default `mask_output = 1`, no sensitivity map, and `F ∘ Finv = id` (the
transform pair is exactly inverse, as for a Fourier pair), the returned image
equals the adjoint reconstruction of the masked input k-space and the
returned k-space equals the masked input; the coil-constancy hypotheses
`hks`, `hm` encode that single-coil tensors carry no real coil axis. -/
theorem unroll_ista_zero_step_identity_no_sensemap (E : IstaEnv)
    (cfg : IstaConfig) (Pit : ℕ → IterParams) (ks m : KSp)
    (hFinv : ∀ x, E.F (E.Finv x) = x)
    (hsm : E.sensemap = none)
    (hN : cfg.numGradSteps = 0)
    (hhard : cfg.hardProjection = true)
    (hmo : cfg.maskOutput = some 1)
    (hks : ∀ c, ks c = ks 0) (hm : ∀ c, m c = m 0) :
    unroll_ista E cfg Pit ks (some m)
      = (model_transpose E.Finv E.sensemap E.nc (apply_mask ks m),
         apply_mask ks m, []) := by
  have hksc : ∀ c i j, apply_mask ks m c i j = apply_mask ks m 0 i j := by
    intro c i j
    show m c i j * ks c i j = m 0 i j * ks 0 i j
    rw [hks c, hm c]
  have hpred : model_forward E.F E.sensemap
      (istaLoop E cfg Pit m
        (model_transpose E.Finv E.sensemap E.nc (apply_mask ks m))
        cfg.numGradSteps).1
      = fun _ => apply_mask ks m 0 := by
    rw [hN]
    funext c
    show model_forward E.F E.sensemap
        (model_transpose E.Finv E.sensemap E.nc (apply_mask ks m)) c
      = apply_mask ks m 0
    rw [hsm]
    exact hFinv (apply_mask ks m 0)
  show unroll_ista_masked E cfg Pit m (apply_mask ks m) = _
  unfold unroll_ista_masked
  simp only [hhard, hmo, if_true]
  rw [hpred, hN]
  have hout : (fun c i j =>
      CQ.scale 1 (m c i j * apply_mask ks m c i j
        + (1 - m c i j) * (fun _ : ℕ => apply_mask ks m 0) c i j))
      = apply_mask ks m := by
    funext c i j
    show CQ.scale 1 (m c i j * apply_mask ks m c i j
        + (1 - m c i j) * apply_mask ks m 0 i j) = apply_mask ks m c i j
    rw [CQ.scale_one, ← hksc c i j]
    show m c i j * (m c i j * ks c i j) + (1 - m c i j) * (m c i j * ks c i j)
        = m c i j * ks c i j
    ring
  rw [hout]
  rfl

/-- C3 witness: the amended zero-step identity applied at the identity
transform on a 1×1 grid with all-ones input and mask. -/
theorem unroll_ista_zero_step_identity_no_sensemap_witness :
    unroll_ista idE cfg3w (fun _ => onesIterP) onesKs (some onesMask)
      = (model_transpose idE.Finv idE.sensemap idE.nc (apply_mask onesKs onesMask),
         apply_mask onesKs onesMask, []) :=
  unroll_ista_zero_step_identity_no_sensemap idE cfg3w (fun _ => onesIterP)
    onesKs onesMask (fun _ => rfl) rfl rfl rfl rfl (fun _ => rfl) (fun _ => rfl)
